import Mathlib

/-!
Verification of the `runtime-sized-array` crate: a fixed-length,
heap-allocated array `Array<T>` with checked and unchecked accessors,
conversions from/to `Vec<T>`, a deep copy, three iterator variants and a
destructor.

The embedding is a shallow one over the code in `src/array.rs`,
`src/array_iters.rs` and `src/error.rs`:

* the backing memory block is a `List (Option T)`; a slot holding `none`
  models uninitialized memory (reading such a slot through an unchecked
  accessor is undefined behaviour in the original), a slot holding
  `some v` models an initialized element with value `v`;
* in-place mutation becomes explicit state passing (a mutating method
  returns the new array value);
* panics (`expect`) become `Except String` results carrying the panic
  message;
* the allocation layer of `Array::new` (layout computation, which can
  fail with a `LayoutError`, and the raw allocator, which can return a
  null pointer) is an abstract `AllocModel` parameter, since the real
  allocator's behaviour is environment-dependent;
* for the clone-independence property the two blocks involved live in an
  explicit heap (`Heap`), pointers being natural numbers, so that
  "mutating the copy does not change the original" is a real statement
  about distinct allocations.
-/

namespace RSA

variable {T I : Type}

/-- Embedding of `struct Array<T>` (src/array.rs, lines 22-25): the
`pointer` field of the Rust struct is the backing block of `size`
contiguous slots, modelled as the list `data`; the stored `size` field
always equals the block length, so it is represented by `data.length`. -/
structure Array (T : Type) where
  data : List (Option T)
deriving DecidableEq

/-- Embedding of `Array::size` (src/array.rs, lines 80-84): returns the
element count fixed at construction. -/
def size (a : Array T) : Nat :=
  a.data.length

/-- Embedding of the unchecked `Array::get` (src/array.rs, lines
179-182): reads the slot at `index` with no bounds check. An in-bounds
initialized slot gives `some v`; `none` is the model's marker for the
undefined behaviour of an out-of-bounds or uninitialized read. -/
def get (a : Array T) (index : Nat) : Option T :=
  a.data.getD index none

/-- Embedding of the unchecked `Array::set` (src/array.rs, lines
276-279): overwrites the slot at `index` with `value`. Out of bounds,
`List.set` leaves the list unchanged (the real code would be undefined
behaviour there; no claim touches that case). -/
def set (a : Array T) (index : Nat) (value : T) : Array T :=
  ⟨a.data.set index (some value)⟩

/-- Embedding of `Array::try_get` (src/array.rs, lines 149-156):
`none` when `size <= index`, otherwise `some` of the unchecked read. -/
def tryGet (a : Array T) (index : Nat) : Option (Option T) :=
  if size a ≤ index then none else some (get a index)

/-- Embedding of `Array::try_get_mut` (src/array.rs, lines 196-203):
same bounds discipline as `try_get`, yielding the mutable slot. -/
def tryGetMut (a : Array T) (index : Nat) : Option (Option T) :=
  if size a ≤ index then none else some (get a index)

/-- Embedding of `Array::try_set` (src/array.rs, lines 244-251):
`none` when `size <= index`, otherwise performs the unchecked `set`
(the returned array is the updated state, standing for the in-place
mutation plus the `Some(())` result). -/
def trySet (a : Array T) (index : Nat) (value : T) : Option (Array T) :=
  if size a ≤ index then none else some (set a index value)

/-- Embedding of `Index<usize> for Array<T>::index` (src/array.rs, lines
455-466): `self.try_get(index).expect("index out of bounds")`; the
`Except.error` case models the panic with its message. -/
def index (a : Array T) (i : Nat) : Except String (Option T) :=
  match tryGet a i with
  | none => Except.error "index out of bounds"
  | some r => Except.ok r

/-- Embedding of `IndexMut<usize> for Array<T>::index_mut` (src/array.rs,
lines 469-479): `self.try_get_mut(index).expect("index out of bounds")`. -/
def indexMut (a : Array T) (i : Nat) : Except String (Option T) :=
  match tryGetMut a i with
  | none => Except.error "index out of bounds"
  | some r => Except.ok r

/- Helper lemmas about list slot access. -/

theorem getD_set_self (l : List α) (i : Nat) (x d : α) (h : i < l.length) :
    (l.set i x).getD i d = x := by
  induction l generalizing i with
  | nil => simp at h
  | cons a t ih =>
    cases i with
    | zero => simp [List.getD]
    | succ j =>
      have hj : j < t.length := by simpa using h
      simpa [List.getD] using ih j hj

theorem getD_set_ne (l : List α) (i j : Nat) (x d : α) (h : j ≠ i) :
    (l.set i x).getD j d = l.getD j d := by
  induction l generalizing i j with
  | nil => simp
  | cons a t ih =>
    cases i with
    | zero =>
      cases j with
      | zero => exact absurd rfl h
      | succ k => simp [List.getD]
    | succ i' =>
      cases j with
      | zero => simp [List.getD]
      | succ k =>
        have hk : k ≠ i' := fun hc => h (by rw [hc])
        simpa [List.getD] using ih i' k hk

/-- C2: for every array of size `n` and every index `i ≥ n`, `try_get`,
`try_get_mut` and `try_set` all return `None` (no panic: they produce a
value), while the indexing operators terminate fatally with the message
"index out of bounds". -/
theorem checked_accessors_out_of_bounds (a : Array T) (i : Nat) (v : T)
    (h : size a ≤ i) :
    tryGet a i = none ∧ tryGetMut a i = none ∧ trySet a i v = none ∧
    index a i = Except.error "index out of bounds" ∧
    indexMut a i = Except.error "index out of bounds" := by
  refine ⟨?_, ?_, ?_, ?_, ?_⟩ <;>
    simp [tryGet, tryGetMut, trySet, index, indexMut, if_pos h]

/-- Witness for C2 at the concrete array `[1, 2, 4]` and index `10`. -/
theorem checked_accessors_out_of_bounds_witness :
    tryGet (⟨[some 1, some 2, some 4]⟩ : Array Nat) 10 = none ∧
    tryGetMut (⟨[some 1, some 2, some 4]⟩ : Array Nat) 10 = none ∧
    trySet (⟨[some 1, some 2, some 4]⟩ : Array Nat) 10 7 = none ∧
    index (⟨[some 1, some 2, some 4]⟩ : Array Nat) 10
      = Except.error "index out of bounds" ∧
    indexMut (⟨[some 1, some 2, some 4]⟩ : Array Nat) 10
      = Except.error "index out of bounds" :=
  checked_accessors_out_of_bounds ⟨[some 1, some 2, some 4]⟩ 10 7
    (by decide)

/-- C3: for every array of size `n`, index `i < n` and value `v`, after
`set(i, v)` the unchecked `get(i)` reads back `v` and `try_get(i)`
returns it as present (`some (some v)`: in bounds, initialized, value
`v`). -/
theorem set_then_get (a : Array T) (i : Nat) (v : T) (h : i < size a) :
    get (set a i v) i = some v ∧ tryGet (set a i v) i = some (some v) := by
  have hlen : size (set a i v) = size a := by
    simp [size, set]
  have hget : get (set a i v) i = some v := by
    simpa [get, set] using getD_set_self a.data i (some v) none h
  refine ⟨hget, ?_⟩
  have hnb : ¬ size (set a i v) ≤ i := by
    rw [hlen]; omega
  simp [tryGet, if_neg hnb, hget]

/-- Witness for C3 at the concrete array `[1, 2, 4]`, index `1`,
value `5`. -/
theorem set_then_get_witness :
    get (set (⟨[some 1, some 2, some 4]⟩ : Array Nat) 1 5) 1 = some 5 ∧
    tryGet (set (⟨[some 1, some 2, some 4]⟩ : Array Nat) 1 5) 1
      = some (some 5) :=
  set_then_get ⟨[some 1, some 2, some 4]⟩ 1 5 (by decide)

/-- C10: `set(i, v)` (and `try_set(i, v)`, which performs the same
write when `i` is in bounds) modifies only slot `i`: the size and every
slot at an index `j ≠ i` are unchanged. -/
theorem set_frame (a : Array T) (i j : Nat) (v : T)
    (hi : i < size a) (hj : j ≠ i) :
    size (set a i v) = size a ∧
    get (set a i v) j = get a j ∧
    trySet a i v = some (set a i v) := by
  refine ⟨by simp [size, set], ?_, ?_⟩
  · simpa [get, set] using getD_set_ne a.data i j (some v) none hj
  · have hnb : ¬ size a ≤ i := by omega
    simp [trySet, if_neg hnb]

/-- Witness for C10 at the concrete array `[1, 2, 4]`, write at index
`1`, frame checked at index `2`. -/
theorem set_frame_witness :
    size (set (⟨[some 1, some 2, some 4]⟩ : Array Nat) 1 5) = 3 ∧
    get (set (⟨[some 1, some 2, some 4]⟩ : Array Nat) 1 5) 2 = some 4 ∧
    trySet (⟨[some 1, some 2, some 4]⟩ : Array Nat) 1 5
      = some (set ⟨[some 1, some 2, some 4]⟩ 1 5) := by
  have h := set_frame (⟨[some 1, some 2, some 4]⟩ : Array Nat) 1 2 5
    (by decide) (by decide)
  exact ⟨h.1, by rw [h.2.1]; decide, h.2.2⟩

/-- Embedding of `struct ArrayError(pub String)` (src/error.rs, lines
4-5): carries a diagnostic message. -/
structure ArrayError where
  msg : String
deriving DecidableEq

/-- Abstract model of the allocation layer used by `Array::new`:
`layoutOf n` is `std::alloc::Layout::array::<T>(n)` (`none` is a
`LayoutError`, e.g. size overflow; a computed layout is an abstract
token), and `alloc l` is `std::alloc::alloc(l)` (`none` is a null
return). Both depend on the environment, so they are parameters. -/
structure AllocModel where
  layoutOf : Nat → Option Nat
  alloc : Nat → Option Nat

/-- Embedding of `Array::new` (src/array.rs, lines 36-47): computes the
layout (a `LayoutError` is propagated by the `?` via
`From<LayoutError> for ArrayError`, src/error.rs lines 7-13), allocates,
returns an error if the allocator gave a null pointer and otherwise the
array of `n` uninitialized slots. -/
def new (T : Type) (M : AllocModel) (n : Nat) : Except ArrayError (Array T) :=
  match M.layoutOf n with
  | none => Except.error ⟨"layout error"⟩
  | some l =>
    match M.alloc l with
    | none => Except.error ⟨"allocation returned null pointer"⟩
    | some _ => Except.ok ⟨List.replicate n none⟩

/-- C7: `new(size)` returns an `ArrayError` exactly when the layout for
`size` elements cannot be computed or the allocator returns null, and an
owning array exactly otherwise. -/
theorem new_error_iff (T : Type) (M : AllocModel) (n : Nat) :
    ((∃ e, new T M n = Except.error e) ↔
      (M.layoutOf n = none ∨
        ∃ l, M.layoutOf n = some l ∧ M.alloc l = none)) ∧
    ((∃ a, new T M n = Except.ok a) ↔
      ∃ l p, M.layoutOf n = some l ∧ M.alloc l = some p) := by
  constructor
  · constructor
    · intro ⟨e, he⟩
      cases hl : M.layoutOf n with
      | none => exact Or.inl rfl
      | some l =>
        cases hp : M.alloc l with
        | none => exact Or.inr ⟨l, rfl, hp⟩
        | some p => simp [new, hl, hp] at he
    · intro h
      rcases h with hl | ⟨l, hl, hp⟩
      · exact ⟨⟨"layout error"⟩, by simp [new, hl]⟩
      · exact ⟨⟨"allocation returned null pointer"⟩, by simp [new, hl, hp]⟩
  · constructor
    · intro ⟨a, ha⟩
      cases hl : M.layoutOf n with
      | none => simp [new, hl] at ha
      | some l =>
        cases hp : M.alloc l with
        | none => simp [new, hl, hp] at ha
        | some p => exact ⟨l, p, rfl, hp⟩
    · intro ⟨l, p, hl, hp⟩
      exact ⟨⟨List.replicate n none⟩, by simp [new, hl, hp]⟩

/-- C8: whenever allocation succeeds, `Array::new(n)` has size `n`, and
the size is unchanged by every subsequent mutating operation of the
embedding: `set` always preserves it, and so does `try_set` whenever it
returns a new state (when it returns `none` the array is untouched).
`size` itself, `get`, `try_get` and `try_get_mut` take `&self` and
mutate nothing. -/
theorem new_size_invariant (T : Type) (M : AllocModel) (n : Nat)
    (a : Array T) (h : new T M n = Except.ok a) :
    size a = n ∧
    (∀ i v, size (set a i v) = size a) ∧
    (∀ i v a', trySet a i v = some a' → size a' = size a) := by
  refine ⟨?_, fun i v => by simp [size, set], fun i v a' ha' => ?_⟩
  · cases hl : M.layoutOf n with
    | none => simp [new, hl] at h
    | some l =>
      cases hp : M.alloc l with
      | none => simp [new, hl, hp] at h
      | some p =>
        simp [new, hl, hp] at h
        simp [← h, size]
  · by_cases hb : size a ≤ i
    · simp [trySet, if_pos hb] at ha'
    · simp [trySet, if_neg hb] at ha'
      simp [← ha', size, set]

/-- Witness for C8 with an allocator model that always succeeds,
at `n = 3`. -/
theorem new_size_invariant_witness :
    size (⟨List.replicate 3 none⟩ : Array Nat) = 3 ∧
    size (set (⟨List.replicate 3 none⟩ : Array Nat) 1 7)
      = size (⟨List.replicate 3 none⟩ : Array Nat) := by
  have h := new_size_invariant Nat ⟨fun n => some n, fun l => some 1⟩ 3
    ⟨List.replicate 3 none⟩ rfl
  exact ⟨h.1, h.2.1 1 7⟩

/-- Model of `std::vec::Vec<T>`: the element sequence and the capacity
of its backing allocation (its length is `data.length`). -/
structure Vec (T : Type) where
  data : List T
  cap : Nat
deriving DecidableEq

/-- Embedding of `From<Vec<T>> for Array<T>::from` (src/array.rs, lines
515-528): allocates an array of size `vec.len()` and moves each element
in, at indices `0, 1, ...` in iteration order; so every slot ends up
initialized with the corresponding source element. -/
def fromVec (v : Vec T) : Array T :=
  ⟨v.data.map some⟩

/-- Reads a whole block back as element values: `some` of the value list
when every slot is initialized, `none` otherwise. `Vec::from_raw_parts`
in `into_vec` requires every slot to hold a live `T` (otherwise the
resulting `Vec` is undefined behaviour); the `none` case marks that. -/
def takeAll : List (Option T) → Option (List T)
  | [] => some []
  | none :: _ => none
  | some x :: rest => (takeAll rest).map (fun l => x :: l)

/-- Embedding of `Array::into_vec` (src/array.rs, lines 326-331):
`Vec::from_raw_parts(self.pointer, self.size, self.size)` reinterprets
the block as a `Vec` of length `size` and capacity `size`. -/
def intoVec (a : Array T) : Option (Vec T) :=
  (takeAll a.data).map (fun l => ⟨l, size a⟩)

theorem takeAll_map_some (l : List T) : takeAll (l.map some) = some l := by
  induction l with
  | nil => rfl
  | cons x rest ih => simp [takeAll, ih]

/-- C4: converting a `Vec` of length `n` into an `Array` and back via
`into_vec` succeeds and yields exactly the original element sequence, in
order, with length `n` and capacity `n`. -/
theorem vec_round_trip (v : Vec T) :
    intoVec (fromVec v) = some ⟨v.data, v.data.length⟩ := by
  simp [intoVec, fromVec, takeAll_map_some, size]

/-- The elements finalized and the deallocations performed by a
destructor run. -/
structure DropEffect where
  droppedCount : Nat
  deallocCount : Nat
deriving DecidableEq

/-- Embedding of `Drop for Array<T>::drop` (src/array.rs, lines
482-488): the body is `self.pointer.drop_in_place()`, and
`drop_in_place` on a `*mut T` finalizes exactly the single `T` the
pointer refers to — the element at index 0 — whatever the array's size;
no call to `std::alloc::dealloc` (or any other release of the backing
allocation) appears in the impl. -/
def dropArray (_a : Array T) : DropEffect :=
  ⟨1, 0⟩

/-- C1 (defect, flagged as such by the crate's own specification):
destroying an array of `n = 2` initialized elements finalizes only 1
element, not 2, and releases the backing allocation 0 times, not once. -/
theorem drop_single_element_defect :
    size (⟨[some 10, some 20]⟩ : Array Nat) = 2 ∧
    (dropArray (⟨[some 10, some 20]⟩ : Array Nat)).droppedCount = 1 ∧
    (dropArray (⟨[some 10, some 20]⟩ : Array Nat)).deallocCount = 0 ∧
    ¬((dropArray (⟨[some 10, some 20]⟩ : Array Nat)).droppedCount
        = size (⟨[some 10, some 20]⟩ : Array Nat) ∧
      (dropArray (⟨[some 10, some 20]⟩ : Array Nat)).deallocCount = 1) := by
  decide

/-- Embedding of the fill loop of `Array::take_from_iter` (src/array.rs,
lines 617-634): `for i in 0..n { match iterator.next() { None => break,
Some(val) => *arr.get_mut_ptr(i) = val.into() } }`. The slots list is
the freshly allocated block (all `none`), the items list is the sequence
the iterator will yield; the result is the filled block together with
the items the iterator has not yielded (the iterator is taken by `&mut`,
so its remaining state is visible to the caller). -/
def fillSlots (f : I → T) : List (Option T) → List I → List (Option T) × List I
  | slots, [] => (slots, [])
  | [], items => ([], items)
  | _ :: rest, it :: items =>
    let r := fillSlots f rest items
    (some (f it) :: r.1, r.2)

/-- Embedding of `Array::take_from_iter` (src/array.rs, lines 617-634):
allocates `n` uninitialized slots and fills them from the iterator,
converting each pulled item with `f` (the `T : From<I::Item>`
conversion, `val.into()`). -/
def takeFromIter (f : I → T) (items : List I) (n : Nat) : Array T × List I :=
  let r := fillSlots f (List.replicate n none) items
  (⟨r.1⟩, r.2)

theorem fillSlots_length (f : I → T) (slots : List (Option T))
    (items : List I) :
    (fillSlots f slots items).1.length = slots.length := by
  induction slots generalizing items with
  | nil => cases items <;> rfl
  | cons s rest ih =>
    cases items with
    | nil => rfl
    | cons it its => simpa [fillSlots] using ih its

theorem fillSlots_spec (f : I → T) (slots : List (Option T))
    (items : List I) :
    (fillSlots f slots items).1
      = ((items.take slots.length).map (fun x => some (f x)))
          ++ slots.drop items.length ∧
    (fillSlots f slots items).2 = items.drop slots.length := by
  induction slots generalizing items with
  | nil => cases items <;> simp [fillSlots]
  | cons s rest ih =>
    cases items with
    | nil => simp [fillSlots]
    | cons it its =>
      have h := ih its
      simp [fillSlots, h.1, h.2]

/-- C6: `take_from_iter(iterator, n)` returns an array of size exactly
`n`; when the iterator yields at least `n` items, all `n` slots are
filled in order with the converted items and exactly `n` items are
pulled (the iterator retains `items.drop n`); when it yields `k < n`
items, the first `k` slots hold the converted items in order and the
trailing `n - k` slots stay uninitialized (`none`) — the result is still
a plain array, not an error. -/
theorem takeFromIter_spec (f : I → T) (items : List I) (n : Nat) :
    size (takeFromIter f items n).1 = n ∧
    (n ≤ items.length →
      (takeFromIter f items n).1.data
        = (items.take n).map (fun x => some (f x))) ∧
    (items.length < n →
      (takeFromIter f items n).1.data
        = items.map (fun x => some (f x))
            ++ List.replicate (n - items.length) none) ∧
    (takeFromIter f items n).2 = items.drop n := by
  have h := fillSlots_spec f (List.replicate n none) items
  refine ⟨?_, fun hn => ?_, fun hn => ?_, ?_⟩
  · simp [size, takeFromIter, fillSlots_length]
  · rw [takeFromIter]
    simp only [h.1, List.length_replicate]
    have : List.drop items.length (List.replicate n (none : Option T))
        = List.replicate (n - items.length) none := by
      simp [List.drop_replicate]
    rw [this]
    have : n - items.length = 0 := by omega
    simp [this]
  · rw [takeFromIter]
    simp only [h.1, List.length_replicate]
    have ht : items.take n = items := List.take_of_length_le (by omega)
    simp [ht, List.drop_replicate]
  · rw [takeFromIter]
    simpa using h.2

/-- Witness for C6: pulling 3 from a 4-item sequence fills all slots and
leaves one item; pulling 3 from a 2-item sequence leaves the last slot
uninitialized. -/
theorem takeFromIter_spec_witness :
    (takeFromIter (fun x : Nat => x + 1) [1, 2, 3, 4] 3).1.data
      = [some 2, some 3, some 4] ∧
    (takeFromIter (fun x : Nat => x + 1) [1, 2] 3).1.data
      = [some 2, some 3, none] := by
  have h1 := takeFromIter_spec (fun x : Nat => x + 1) [1, 2, 3, 4] 3
  have h2 := takeFromIter_spec (fun x : Nat => x + 1) [1, 2] 3
  exact ⟨by rw [h1.2.1 (by decide)]; decide,
         by rw [h2.2.2.1 (by decide)]; decide⟩

/-- Embedding of `struct Iter<'a, T>` (src/array_iters.rs, lines 32-38):
the borrowed block's contents, the current pointer and the end pointer,
the two pointers as offsets from the block start. -/
structure Iter (T : Type) where
  elems : List (Option T)
  ptr : Nat
  endp : Nat
deriving DecidableEq

/-- Embedding of `Iter::new` (src/array_iters.rs, lines 44-51):
`ptr = array.pointer` (offset 0), `end = ptr.add(array.size())`. -/
def Iter.new (a : Array T) : Iter T :=
  ⟨a.data, 0, size a⟩

/-- Embedding of `Iterator for Iter::next` (src/array_iters.rs, lines
55-70): `None` when `ptr == end`, otherwise yield the element at `ptr`
and advance `ptr` by one slot. -/
def Iter.next (it : Iter T) : Option (Option T) × Iter T :=
  if it.ptr = it.endp then (none, it)
  else (some (it.elems.getD it.ptr none), ⟨it.elems, it.ptr + 1, it.endp⟩)

/-- The iterator state after `k` calls to `next` (results discarded). -/
def Iter.stepN (it : Iter T) : Nat → Iter T
  | 0 => it
  | k + 1 => (Iter.stepN it k).next.2

/-- Embedding of `struct IterMut<'a, T>` (src/array_iters.rs, lines
99-105): same state shape as `Iter`, over the mutably borrowed block. -/
structure IterMut (T : Type) where
  elems : List (Option T)
  ptr : Nat
  endp : Nat
deriving DecidableEq

/-- Embedding of `IterMut::new` (src/array_iters.rs, lines 108-120). -/
def IterMut.new (a : Array T) : IterMut T :=
  ⟨a.data, 0, size a⟩

/-- Embedding of `Iterator for IterMut::next` (src/array_iters.rs,
lines 123-138). -/
def IterMut.next (it : IterMut T) : Option (Option T) × IterMut T :=
  if it.ptr = it.endp then (none, it)
  else (some (it.elems.getD it.ptr none), ⟨it.elems, it.ptr + 1, it.endp⟩)

/-- The `IterMut` state after `k` calls to `next`. -/
def IterMut.stepN (it : IterMut T) : Nat → IterMut T
  | 0 => it
  | k + 1 => (IterMut.stepN it k).next.2

/-- Embedding of `struct IntoIter<T>` (src/array_iters.rs, lines
161-166): owns the array itself, plus current and end pointers. -/
structure IntoIter (T : Type) where
  array : Array T
  ptr : Nat
  endp : Nat
deriving DecidableEq

/-- Embedding of `IntoIter::new` (src/array_iters.rs, lines 169-177):
`end = array.pointer.add(array.size())`, `ptr = array.pointer`. -/
def IntoIter.new (a : Array T) : IntoIter T :=
  ⟨a, 0, size a⟩

/-- Embedding of `Iterator for IntoIter::next` (src/array_iters.rs,
lines 180-195): `None` when `ptr == end`, otherwise `ptr::read` the
value at `ptr` out of the owned block and advance `ptr`. -/
def IntoIter.next (it : IntoIter T) : Option (Option T) × IntoIter T :=
  if it.ptr = it.endp then (none, it)
  else (some (it.array.data.getD it.ptr none), ⟨it.array, it.ptr + 1, it.endp⟩)

/-- The `IntoIter` state after `k` calls to `next`. -/
def IntoIter.stepN (it : IntoIter T) : Nat → IntoIter T
  | 0 => it
  | k + 1 => (IntoIter.stepN it k).next.2

theorem iterStepN_new (a : Array T) (k : Nat) :
    Iter.stepN (Iter.new a) k = ⟨a.data, min k (size a), size a⟩ := by
  induction k with
  | zero => simp [Iter.stepN, Iter.new]
  | succ k ih =>
    simp only [Iter.stepN, ih]
    by_cases h : min k (size a) = size a
    · have h' : min (k + 1) (size a) = min k (size a) := by omega
      simp [Iter.next, h, h']
    · have h' : min (k + 1) (size a) = min k (size a) + 1 := by omega
      simp [Iter.next, h, h']

theorem iterMutStepN_new (a : Array T) (k : Nat) :
    IterMut.stepN (IterMut.new a) k = ⟨a.data, min k (size a), size a⟩ := by
  induction k with
  | zero => simp [IterMut.stepN, IterMut.new]
  | succ k ih =>
    simp only [IterMut.stepN, ih]
    by_cases h : min k (size a) = size a
    · have h' : min (k + 1) (size a) = min k (size a) := by omega
      simp [IterMut.next, h, h']
    · have h' : min (k + 1) (size a) = min k (size a) + 1 := by omega
      simp [IterMut.next, h, h']

theorem intoIterStepN_new (a : Array T) (k : Nat) :
    IntoIter.stepN (IntoIter.new a) k = ⟨a, min k (size a), size a⟩ := by
  induction k with
  | zero => simp [IntoIter.stepN, IntoIter.new]
  | succ k ih =>
    simp only [IntoIter.stepN, ih]
    by_cases h : min k (size a) = size a
    · have h' : min (k + 1) (size a) = min k (size a) := by omega
      simp [IntoIter.next, h, h']
    · have h' : min (k + 1) (size a) = min k (size a) + 1 := by omega
      simp [IntoIter.next, h, h']

/-- C5: each of `Iter`, `IterMut` and `IntoIter` over an array of size
`n` starts with the current pointer at the block start (offset 0) and
the end pointer at block start plus `n`; the `i`-th `next` call
(`i < n`) yields the element at index `i` and advances the current
pointer by one slot, so the `n` elements are yielded in index order
0 to n-1; and from the `n`-th call on, `next` returns `None` leaving
the state unchanged — the state stays the exhausted state forever, so
exhaustion is permanent. -/
theorem iterators_yield_in_order (a : Array T) :
    (Iter.new a = ⟨a.data, 0, size a⟩ ∧
      (∀ i, i < size a →
        (Iter.stepN (Iter.new a) i).next
          = (some (get a i), Iter.stepN (Iter.new a) (i + 1))) ∧
      (∀ m, size a ≤ m →
        (Iter.stepN (Iter.new a) m).next
            = (none, Iter.stepN (Iter.new a) m) ∧
        Iter.stepN (Iter.new a) m = Iter.stepN (Iter.new a) (size a))) ∧
    (IterMut.new a = ⟨a.data, 0, size a⟩ ∧
      (∀ i, i < size a →
        (IterMut.stepN (IterMut.new a) i).next
          = (some (get a i), IterMut.stepN (IterMut.new a) (i + 1))) ∧
      (∀ m, size a ≤ m →
        (IterMut.stepN (IterMut.new a) m).next
            = (none, IterMut.stepN (IterMut.new a) m) ∧
        IterMut.stepN (IterMut.new a) m
            = IterMut.stepN (IterMut.new a) (size a))) ∧
    (IntoIter.new a = ⟨a, 0, size a⟩ ∧
      (∀ i, i < size a →
        (IntoIter.stepN (IntoIter.new a) i).next
          = (some (get a i), IntoIter.stepN (IntoIter.new a) (i + 1))) ∧
      (∀ m, size a ≤ m →
        (IntoIter.stepN (IntoIter.new a) m).next
            = (none, IntoIter.stepN (IntoIter.new a) m) ∧
        IntoIter.stepN (IntoIter.new a) m
            = IntoIter.stepN (IntoIter.new a) (size a))) := by
  refine ⟨⟨rfl, fun i hi => ?_, fun m hm => ⟨?_, ?_⟩⟩,
          ⟨rfl, fun i hi => ?_, fun m hm => ⟨?_, ?_⟩⟩,
          ⟨rfl, fun i hi => ?_, fun m hm => ⟨?_, ?_⟩⟩⟩
  · have h1 : min i (size a) = i := by omega
    have h2 : min (i + 1) (size a) = i + 1 := by omega
    have hne : i ≠ size a := by omega
    simp [iterStepN_new, h1, h2, Iter.next, hne, get]
  · have h1 : min m (size a) = size a := by omega
    simp [iterStepN_new, h1, Iter.next]
  · have h1 : min m (size a) = size a := by omega
    have h2 : min (size a) (size a) = size a := by omega
    simp [iterStepN_new, h1, h2]
  · have h1 : min i (size a) = i := by omega
    have h2 : min (i + 1) (size a) = i + 1 := by omega
    have hne : i ≠ size a := by omega
    simp [iterMutStepN_new, h1, h2, IterMut.next, hne, get]
  · have h1 : min m (size a) = size a := by omega
    simp [iterMutStepN_new, h1, IterMut.next]
  · have h1 : min m (size a) = size a := by omega
    have h2 : min (size a) (size a) = size a := by omega
    simp [iterMutStepN_new, h1, h2]
  · have h1 : min i (size a) = i := by omega
    have h2 : min (i + 1) (size a) = i + 1 := by omega
    have hne : i ≠ size a := by omega
    simp [intoIterStepN_new, h1, h2, IntoIter.next, hne, get]
  · have h1 : min m (size a) = size a := by omega
    simp [intoIterStepN_new, h1, IntoIter.next]
  · have h1 : min m (size a) = size a := by omega
    have h2 : min (size a) (size a) = size a := by omega
    simp [intoIterStepN_new, h1, h2]

/-- Witness for C5 at the concrete array `[1, 2, 4]`: the second `next`
of `Iter` yields element index 1, the fifth `next` of each variant after
exhaustion returns `None` with the state unchanged. -/
theorem iterators_yield_in_order_witness :
    (Iter.stepN (Iter.new (⟨[some 1, some 2, some 4]⟩ : Array Nat)) 1).next
      = (some (some 2),
         Iter.stepN (Iter.new ⟨[some 1, some 2, some 4]⟩) 2) ∧
    (Iter.stepN (Iter.new (⟨[some 1, some 2, some 4]⟩ : Array Nat)) 5).next
      = (none, Iter.stepN (Iter.new ⟨[some 1, some 2, some 4]⟩) 5) ∧
    (IterMut.stepN
        (IterMut.new (⟨[some 1, some 2, some 4]⟩ : Array Nat)) 5).next
      = (none, IterMut.stepN (IterMut.new ⟨[some 1, some 2, some 4]⟩) 5) ∧
    (IntoIter.stepN
        (IntoIter.new (⟨[some 1, some 2, some 4]⟩ : Array Nat)) 1).next
      = (some (some 2),
         IntoIter.stepN (IntoIter.new ⟨[some 1, some 2, some 4]⟩) 2) := by
  have h := iterators_yield_in_order (⟨[some 1, some 2, some 4]⟩ : Array Nat)
  refine ⟨?_, ?_, ?_, ?_⟩
  · have := h.1.2.1 1 (by decide)
    rw [this]; rfl
  · exact (h.1.2.2 5 (by decide)).1
  · exact (h.2.1.2.2 5 (by decide)).1
  · have := h.2.2.2.1 1 (by decide)
    rw [this]; rfl

/-- An array as the Rust struct stores it: a pointer (a heap address,
modelled as a natural number) and the fixed size. Used for the deep-copy
claim, where two distinct allocations must be compared. -/
structure RArray where
  ptr : Nat
  size : Nat
deriving DecidableEq

/-- An explicit heap: `blocks p` is the block allocated at address `p`,
`next` the lowest address not handed out yet (every live allocation sits
at an address below `next`, so a fresh allocation never aliases one). -/
structure Heap (T : Type) where
  blocks : Nat → List (Option T)
  next : Nat

/-- A live array: its pointer was previously handed out by the
allocator, and its block holds exactly `size` slots. -/
def Heap.valid (h : Heap T) (a : RArray) : Prop :=
  a.ptr < h.next ∧ (h.blocks a.ptr).length = a.size

/-- The unchecked read `*self.get_ptr(i)` in the heap model. -/
def readSlot (h : Heap T) (a : RArray) (i : Nat) : Option T :=
  (h.blocks a.ptr).getD i none

/-- Embedding of `Clone for Array<T>::clone` (src/array.rs, lines
568-578): `Array::new(self.size)` allocates a fresh block (at the fresh
address `h.next`), then `for i in 0..size` copies slot `i` with
`*arr.get_mut_ptr(i) = std::ptr::read(self.get_ptr(i))`. -/
def clone (h : Heap T) (a : RArray) : Heap T × RArray :=
  let p := h.next
  let newBlock :=
    (List.range a.size).map (fun i => (h.blocks a.ptr).getD i none)
  (⟨fun q => if q = p then newBlock else h.blocks q, h.next + 1⟩,
   ⟨p, a.size⟩)

/-- The unchecked `Array::set` (src/array.rs, lines 276-279) in the heap
model: overwrites slot `i` of `a`'s block, touching no other block. -/
def setSlot (h : Heap T) (a : RArray) (i : Nat) (v : T) : Heap T :=
  ⟨fun q => if q = a.ptr then (h.blocks a.ptr).set i (some v)
            else h.blocks q,
   h.next⟩

theorem getD_range_map (f : Nat → α) (n i : Nat) (d : α) (h : i < n) :
    ((List.range n).map f).getD i d = f i := by
  induction n generalizing i with
  | zero => omega
  | succ m ih =>
    rw [List.range_succ, List.map_append]
    by_cases hi : i < m
    · rw [List.getD_append _ _ _ _ (by simpa using hi)]
      exact ih i hi
    · have him : i = m := by omega
      subst him
      rw [List.getD_eq_getElem?_getD]
      rw [List.getElem?_append_right (by simp)]
      simp

/-- C9: cloning a live array yields a fresh array of the same size, at a
different address, whose slots equal the source's slot for slot (the
source block is untouched by the clone); and afterwards writing any
value at any index of the copy leaves the original's block unchanged,
and vice versa. -/
theorem clone_deep_copy (h : Heap T) (a : RArray) (hv : h.valid a) :
    (clone h a).2.size = a.size ∧
    (clone h a).2.ptr ≠ a.ptr ∧
    (clone h a).1.blocks a.ptr = h.blocks a.ptr ∧
    (∀ i, i < a.size →
      readSlot (clone h a).1 (clone h a).2 i = readSlot h a i) ∧
    (∀ i v, (setSlot (clone h a).1 (clone h a).2 i v).blocks a.ptr
        = (clone h a).1.blocks a.ptr) ∧
    (∀ i v, (setSlot (clone h a).1 a i v).blocks (clone h a).2.ptr
        = (clone h a).1.blocks (clone h a).2.ptr) := by
  have hne : a.ptr ≠ h.next := by
    have := hv.1
    omega
  refine ⟨rfl, ?_, ?_, fun i hi => ?_, fun i v => ?_, fun i v => ?_⟩
  · intro hc
    exact hne (by simpa [clone] using hc.symm)
  · simp [clone, hne]
  · simp only [clone, readSlot, if_true]
    exact getD_range_map _ a.size i none hi
  · simp only [setSlot, clone]
    rw [if_neg hne]
  · have hne' : (h.next : Nat) ≠ a.ptr := fun hc => hne hc.symm
    simp only [setSlot, clone]
    rw [if_neg hne']

/-- A concrete two-element heap for the C9 witness: one block `[1, 2]`
at address 0. -/
def heapW : Heap Nat :=
  ⟨fun q => if q = 0 then [some 1, some 2] else [], 1⟩

/-- The live array over `heapW`'s block. -/
def arrW : RArray :=
  ⟨0, 2⟩

/-- Witness for C9 over the concrete heap: the copy has size 2, reads
back the source's first element, and writing 99 into the copy leaves the
original block as it was. -/
theorem clone_deep_copy_witness :
    (clone heapW arrW).2.size = 2 ∧
    readSlot (clone heapW arrW).1 (clone heapW arrW).2 0 = some 1 ∧
    (setSlot (clone heapW arrW).1 (clone heapW arrW).2 0 99).blocks 0
      = (clone heapW arrW).1.blocks 0 := by
  have h := clone_deep_copy heapW arrW ⟨by norm_num [heapW, arrW], rfl⟩
  refine ⟨h.1, ?_, ?_⟩
  · rw [h.2.2.2.1 0 (by norm_num [arrW])]
    rfl
  · exact h.2.2.2.2.1 0 99

end RSA
